import Mathlib

/-
  Verification of the representation-registry core of the xybor-x/enum
  library (package core, src/unnamed/part_002; the multi-type map,
  src/internal/mtmap; and the read-path utilities of src/enum.go).

  Modelling conventions:
  * The global multi-type map is modelled per enum-type instantiation
    (every mtkey embeds the enum static type, so distinct instantiations
    never share slots); the state is an association list with the newest
    binding in front, which is observationally the Go map.
  * Go interface values are the inductive GoVal; Go floats are exact
    rationals (the registration code only truncates and compares them,
    and truncation is exact on every representable float); Go integer
    conversions wrap two's-complement, written out explicitly.
  * Panics are error tags; a panicking call returns the global map as
    mutated so far, since a Go panic does not roll the writes back.
  * The enum instantiation is a defined (named) Go type, as in every use of
    the library: its values held in an interface carry the enum's own dynamic
    type, distinct from every primitive type.
-/

set_option linter.unusedVariables false

namespace XyborEnum

/-- Signed integer widths of Go: int, int8, int16, int32, int64 (int is 64 bits
on the platforms the library targets). -/
inductive IntW where
  | i | i8 | i16 | i32 | i64
deriving DecidableEq

/-- Unsigned integer widths of Go: uint, uint8, uint16, uint32, uint64. -/
inductive UintW where
  | u | u8 | u16 | u32 | u64
deriving DecidableEq

/-- Bit count of a signed width. -/
def IntW.bits : IntW → Nat
  | .i => 64 | .i8 => 8 | .i16 => 16 | .i32 => 32 | .i64 => 64

/-- Bit count of an unsigned width. -/
def UintW.bits : UintW → Nat
  | .u => 64 | .u8 => 8 | .u16 => 16 | .u32 => 32 | .u64 => 64

/-- Identity of the twelve Go primitive numeric types. -/
inductive NumT where
  | i (w : IntW) | u (w : UintW) | f32 | f64
deriving DecidableEq

/-- A value of one of the twelve Go primitive numeric types. -/
inductive NumVal where
  | int (w : IntW) (v : Int)
  | uint (w : UintW) (v : Nat)
  | f32 (q : ℚ)
  | f64 (q : ℚ)
deriving DecidableEq

/-- The primitive numeric type of a numeric value. -/
def NumVal.numT : NumVal → NumT
  | .int w _ => .i w | .uint w _ => .u w | .f32 _ => .f32 | .f64 _ => .f64

/-- The exact rational value carried by a primitive number. -/
def NumVal.q : NumVal → ℚ
  | .int _ v => v | .uint _ v => v | .f32 x => x | .f64 x => x

/-- Truncation toward zero of a rational (math.Trunc and xmath.Trunc32, which
are exact on the representable values they are applied to). -/
def truncQ (x : ℚ) : Int := x.num / (x.den : Int)

/-- Two's-complement wrap of an integer into a signed width of b bits
(Go integer conversion semantics). -/
def wrapS (b : Nat) (v : Int) : Int :=
  let m := v % ((2 : Int) ^ b)
  if m < (2 : Int) ^ (b - 1) then m else m - (2 : Int) ^ b

/-- Wrap of an integer into an unsigned width of b bits (Go conversion). -/
def wrapU (b : Nat) (v : Int) : Nat :=
  (v % ((2 : Int) ^ b)).toNat

/-- xreflect.Convert of a numeric value to the primitive numeric type t:
integer targets truncate and wrap, float targets are exact in this model. -/
def convertNum (t : NumT) (x : ℚ) : NumVal :=
  match t with
  | .i w => .int w (wrapS w.bits (truncQ x))
  | .u w => .uint w (wrapU w.bits (truncQ x))
  | .f32 => .f32 x
  | .f64 => .f64 x

/-- Underlying kind of a user-defined (non-primitive) Go type's value. -/
inductive CKind where
  | num (v : NumVal)
  | str (s : String)
  | other (tag : String)
deriving DecidableEq

/-- A value of a user-defined Go type held in an interface: its dynamic type
name, its underlying kind and value, and the result of its String method when
the type implements fmt.Stringer. -/
structure CustomVal where
  typeName : String
  kind : CKind
  stringer : Option String
deriving DecidableEq

/-- A Go interface value (any), as supplied for representations and as stored
in the multi-type map. -/
inductive GoVal where
  | num (v : NumVal)
  | str (s : String)
  | custom (c : CustomVal)
deriving DecidableEq

/-- xreflect.IsPrimitiveNumber: the dynamic type is one of the twelve
primitive number types. -/
def isPrimitiveNumber : GoVal → Bool
  | .num _ => true | _ => false

/-- xreflect.IsPrimitiveString: the dynamic type is string itself. -/
def isPrimitiveString : GoVal → Bool
  | .str _ => true | _ => false

/-- xreflect.IsNumber: the reflect.Kind is numeric (primitive numbers and
defined types of numeric kind). -/
def isNumber : GoVal → Bool
  | .num _ => true
  | .custom c => match c.kind with | .num _ => true | _ => false
  | _ => false

/-- xreflect.IsString: the reflect.Kind is String. -/
def isString : GoVal → Bool
  | .str _ => true
  | .custom c => match c.kind with | .str _ => true | _ => false
  | _ => false

/-- xreflect.IsFloat32: the reflect.Kind is Float32. -/
def isFloat32 : GoVal → Bool
  | .num (.f32 _) => true
  | .custom ⟨_, .num (.f32 _), _⟩ => true
  | _ => false

/-- xreflect.IsFloat64: the reflect.Kind is Float64. -/
def isFloat64 : GoVal → Bool
  | .num (.f64 _) => true
  | .custom ⟨_, .num (.f64 _), _⟩ => true
  | _ => false

/-- xreflect.IsImplement with fmt.Stringer, together with the call of the
String method: primitive types implement no methods. -/
def stringerOf : GoVal → Option String
  | .custom c => c.stringer
  | _ => none

/-- The exact value of a number-kinded Go value (the input of
xreflect.Convert when converting it to a numeric type). -/
def numValOf : GoVal → ℚ
  | .num v => v.q
  | .custom ⟨_, .num v, _⟩ => v.q
  | _ => 0

/-- xreflect.Convert to string of a string-kinded Go value. -/
def stringValOf : GoVal → String
  | .str s => s
  | .custom ⟨_, .str s, _⟩ => s
  | _ => ""

/-- reflect.Type identity of a representation value: the discriminant stored
inside Enum2Repr keys. -/
inductive ReprType where
  | numT (t : NumT) | stringT | customT (name : String)
deriving DecidableEq

/-- A value of the fixed enum type instantiation the registry serves.  The Go
type Enum may have numeric kind, string kind, or neither (struct-based
flavors); all values of one instantiation share the kind, which the model
does not need to enforce. -/
inductive EnumVal where
  | num (v : NumVal)
  | str (s : String)
  | plain (tag : String)
deriving DecidableEq

/-- Dynamic type name of the fixed enum type, used when an enum value is
itself stored as an interface value. -/
def enumTypeName : String := "Enum"

/-- The enum value seen as a Go interface value. -/
def EnumVal.asAny : EnumVal → GoVal
  | .num v => .custom ⟨enumTypeName, .num v, none⟩
  | .str s => .custom ⟨enumTypeName, .str s, none⟩
  | .plain t => .custom ⟨enumTypeName, .other t, none⟩

/-- xreflect.IsNumber applied to the enum value. -/
def EnumVal.isNumber (e : EnumVal) : Bool := XyborEnum.isNumber e.asAny

/-- xreflect.IsString applied to the enum value. -/
def EnumVal.isString (e : EnumVal) : Bool := XyborEnum.isString e.asAny

/-- The Go zero value of the Enum type.  Its exact shape depends on the
instantiation and never matters below; it only matters that the must variants
of the lookups return it on a miss. -/
def enumZero : EnumVal := .num (.int .i64 0)

/-- Keys of the multi-type map serving the fixed enum type (mtkey): every key
of the Go map embeds the enum static type, so one instantiation's slots are
exactly these. -/
inductive Key where
  | enum2json (e : EnumVal)
  | enum2repr (e : EnumVal) (t : ReprType)
  | repr2enum (r : GoVal)
  | allEnums
  | isFinalized
deriving DecidableEq

/-- Values stored in the multi-type map. -/
inductive StoreVal where
  | vGo (g : GoVal)
  | vEnum (e : EnumVal)
  | vStr (s : String)
  | vList (l : List EnumVal)
  | vBool (b : Bool)
deriving DecidableEq

/-- The slice of the global multi-type map serving the fixed enum type: an
association list with the newest binding in front (mtmap.Set overwrites,
modelled by shadowing). -/
abbrev CoreState := List (Key × StoreVal)

/-- mtmap lookup: the newest binding of the key, if any. -/
def getS : CoreState → Key → Option StoreVal
  | [], _ => none
  | (k0, v) :: rest, k => if k0 = k then some v else getS rest k

/-- mtmap.Set: unconditionally overwrite the slot. -/
def setS (s : CoreState) (k : Key) (v : StoreVal) : CoreState := (k, v) :: s

/-- mtmap.Get of the is-finalized flag (zero value false when absent). -/
def getFinalized (s : CoreState) : Bool :=
  match getS s .isFinalized with
  | some (.vBool b) => b
  | _ => false

/-- mtmap.Get of the all-values slice (zero value nil when absent). -/
def getAllList (s : CoreState) : List EnumVal :=
  match getS s .allEnums with
  | some (.vList l) => l
  | _ => []

/-- The key probed by core.GetAvailableEnumValue for the int64 id:
mtkey.Repr2Enum of the id as an int64 value. -/
def probeKey (id : Nat) : Key := .repr2enum (.num (.int .i64 (id : Int)))

/-- One probe of core.GetAvailableEnumValue: walk int64 ids upward from id
until one has no Repr2Enum entry.  The Go loop is unbounded; fuel makes it
structural, and fuel one beyond the store length always suffices (pigeonhole,
proved below). -/
def probeAvail (s : CoreState) : Nat → Nat → Nat
  | 0, id => id
  | fuel + 1, id =>
    if (getS s (probeKey id)).isSome
    then probeAvail s fuel (id + 1)
    else id

/-- core.GetAvailableEnumValue: the first int64 id from 0 upward whose
Repr2Enum slot is empty. -/
def GetAvailableEnumValue (s : CoreState) : Nat :=
  probeAvail s (s.length + 1) 0

/-- Registration errors: one constructor per panic site of core.MapAny and
core.mapEnumNumber (panic messages abstracted to tags). -/
inductive MapErr where
  | finalized
  | multipleNumerics
  | multipleStrings
  | reprAlreadyMapped
  | typeMappedTwice
  | noStringRepr
  | requireNumber
  | numberValueMapped
  | numberMappedTwice
  | stringAlreadyMapped
  | stringMappedTwice
deriving DecidableEq

/-- The integer fan-out of core.mapEnumNumber: enum to each of the ten integer
widths, then each width's converted anchor back to enum, in source order. -/
def writeIntFanout (s : CoreState) (enum : EnumVal) (x : ℚ) : CoreState :=
  let s1 := setS s (.enum2repr enum (.numT (.i .i))) (.vGo (.num (convertNum (.i .i) x)))
  let s2 := setS s1 (.enum2repr enum (.numT (.i .i8))) (.vGo (.num (convertNum (.i .i8) x)))
  let s3 := setS s2 (.enum2repr enum (.numT (.i .i16))) (.vGo (.num (convertNum (.i .i16) x)))
  let s4 := setS s3 (.enum2repr enum (.numT (.i .i32))) (.vGo (.num (convertNum (.i .i32) x)))
  let s5 := setS s4 (.enum2repr enum (.numT (.i .i64))) (.vGo (.num (convertNum (.i .i64) x)))
  let s6 := setS s5 (.enum2repr enum (.numT (.u .u))) (.vGo (.num (convertNum (.u .u) x)))
  let s7 := setS s6 (.enum2repr enum (.numT (.u .u8))) (.vGo (.num (convertNum (.u .u8) x)))
  let s8 := setS s7 (.enum2repr enum (.numT (.u .u16))) (.vGo (.num (convertNum (.u .u16) x)))
  let s9 := setS s8 (.enum2repr enum (.numT (.u .u32))) (.vGo (.num (convertNum (.u .u32) x)))
  let s10 := setS s9 (.enum2repr enum (.numT (.u .u64))) (.vGo (.num (convertNum (.u .u64) x)))
  let s11 := setS s10 (.repr2enum (.num (convertNum (.i .i) x))) (.vEnum enum)
  let s12 := setS s11 (.repr2enum (.num (convertNum (.i .i8) x))) (.vEnum enum)
  let s13 := setS s12 (.repr2enum (.num (convertNum (.i .i16) x))) (.vEnum enum)
  let s14 := setS s13 (.repr2enum (.num (convertNum (.i .i32) x))) (.vEnum enum)
  let s15 := setS s14 (.repr2enum (.num (convertNum (.i .i64) x))) (.vEnum enum)
  let s16 := setS s15 (.repr2enum (.num (convertNum (.u .u) x))) (.vEnum enum)
  let s17 := setS s16 (.repr2enum (.num (convertNum (.u .u8) x))) (.vEnum enum)
  let s18 := setS s17 (.repr2enum (.num (convertNum (.u .u16) x))) (.vEnum enum)
  let s19 := setS s18 (.repr2enum (.num (convertNum (.u .u32) x))) (.vEnum enum)
  setS s19 (.repr2enum (.num (convertNum (.u .u64) x))) (.vEnum enum)

/-- core.mapEnumNumber: maps the enum to all numeric representations derived
from anchor n and back.  Integer fan-out happens unless the anchor has float
kind with a fractional value; float32 and float64 views are always written. -/
def mapEnumNumber (s : CoreState) (enum : EnumVal) (n : GoVal) : CoreState × Option MapErr :=
  if ¬ isNumber n then (s, some .requireNumber)
  else if (getS s (.repr2enum n)).isSome then (s, some .numberValueMapped)
  else if (getS s (.enum2repr enum (.numT .f32))).isSome then (s, some .numberMappedTwice)
  else
    let x := numValOf n
    let mapInteger : Bool :=
      if isFloat32 n then decide (x = ((truncQ x : Int) : ℚ))
      else if isFloat64 n then decide (x = ((truncQ x : Int) : ℚ))
      else true
    let s1 := if mapInteger then writeIntFanout s enum x else s
    let s2 := setS s1 (.enum2repr enum (.numT .f32)) (.vGo (.num (convertNum .f32 x)))
    let s3 := setS s2 (.enum2repr enum (.numT .f64)) (.vGo (.num (convertNum .f64 x)))
    let s4 := setS s3 (.repr2enum (.num (convertNum .f32 x))) (.vEnum enum)
    let s5 := setS s4 (.repr2enum (.num (convertNum .f64 x))) (.vEnum enum)
    (s5, none)

/-- The mutable locals of core.MapAny during its representation scan (the
global store is threaded alongside, not inside, these locals). -/
structure LoopAcc where
  strRepr : String
  hasStrRepr : Bool
  hasPrimitiveStr : Bool
  numericRepr : Option GoVal
  hasPrimitiveNumeric : Bool

/-- The string absorption of the default case of the scan (lines 163-171):
a Stringer representation, else a string-kinded one, seeds the canonical
string when none is known yet. -/
def absorbString (c : CustomVal) (acc : LoopAcc) : LoopAcc :=
  if acc.hasStrRepr then acc
  else
    match c.stringer with
    | some str => { acc with strRepr := str, hasStrRepr := true }
    | none =>
      match c.kind with
      | .str t => { acc with strRepr := t, hasStrRepr := true }
      | _ => acc

/-- The numeric absorption of the default case of the scan (lines 173-175):
a number-kinded representation seeds the anchor when none is known yet. -/
def absorbNumber (c : CustomVal) (acc : LoopAcc) : LoopAcc :=
  if acc.numericRepr = none ∧ isNumber (.custom c) = true then
    { acc with numericRepr := some (.custom c) }
  else acc

/-- The representation scan of core.MapAny (its for-loop over reprs), with one
error tag per panic site.  Non-primitive representations are written into both
directions as they are scanned, before later invariants are checked. -/
def mapAnyLoop (enum : EnumVal) :
    List GoVal → LoopAcc → CoreState → (LoopAcc × CoreState) × Option MapErr
  | [], acc, st => ((acc, st), none)
  | repr :: rest, acc, st =>
    match repr with
    | .num nv =>
      if acc.hasPrimitiveNumeric then ((acc, st), some .multipleNumerics)
      else mapAnyLoop enum rest
        { acc with numericRepr := some (.num nv), hasPrimitiveNumeric := true } st
    | .str t =>
      if acc.hasPrimitiveStr then ((acc, st), some .multipleStrings)
      else mapAnyLoop enum rest
        { acc with strRepr := t, hasStrRepr := true, hasPrimitiveStr := true } st
    | .custom c =>
      if (getS st (.repr2enum (.custom c))).isSome then ((acc, st), some .reprAlreadyMapped)
      else if (getS st (.enum2repr enum (.customT c.typeName))).isSome then
        ((acc, st), some .typeMappedTwice)
      else
        let acc2 := absorbNumber c (absorbString c acc)
        let st1 := setS st (.enum2repr enum (.customT c.typeName)) (.vGo (.custom c))
        let st2 := setS st1 (.repr2enum (.custom c)) (.vEnum enum)
        mapAnyLoop enum rest acc2 st2

/-- strconv.Quote, with escaping abstracted away (the registered strings the
claims touch need none). -/
def quoteStr (s : String) : String := "\"" ++ s ++ "\""

/-- The anchor defaulting of core.MapAny (lines 186-188): when no numeric
representation was found, the smallest available int64 id of the current
store state becomes the anchor. -/
def resolveNumericRepr (acc : LoopAcc) (st0 : CoreState) : GoVal :=
  match acc.numericRepr with
  | some n => n
  | none => .num (.int .i64 (GetAvailableEnumValue st0 : Int))

/-- The string commit of core.MapAny (lines 201-207): the pre-quoted JSON
form, the enum-to-string and string-to-enum slots, then the append of the
enum value to the all-values list (read back from the store after the three
writes, as the source does). -/
def commitString (enum : EnumVal) (strRepr : String) (st : CoreState) : CoreState :=
  let st1 := setS st (.enum2json enum) (.vStr (quoteStr strRepr))
  let st2 := setS st1 (.enum2repr enum .stringT) (.vGo (.str strRepr))
  let st3 := setS st2 (.repr2enum (.str strRepr)) (.vEnum enum)
  setS st3 .allEnums (.vList (getAllList st3 ++ [enum]))

/-- The part of core.MapAny after the representation scan (lines 182-209 of
the source): the missing-string check, the anchor defaulting, the numeric
mapping, the string commit with its two duplicate checks, and the append to
the all-values list. -/
def mapAnyFinish (enum : EnumVal) (acc : LoopAcc) (st0 : CoreState) :
    CoreState × Option MapErr :=
  if ¬ acc.hasStrRepr then (st0, some .noStringRepr)
  else
    match mapEnumNumber st0 enum (resolveNumericRepr acc st0) with
    | (st, some e) => (st, some e)
    | (st, none) =>
      if (getS st (.repr2enum (.str acc.strRepr))).isSome then
        (st, some .stringAlreadyMapped)
      else if (getS st (.enum2repr enum .stringT)).isSome then
        (st, some .stringMappedTwice)
      else (commitString enum acc.strRepr st, none)

/-- The initial values of the locals of core.MapAny (lines 113-129): a
string-kinded enum value seeds the canonical string, a numeric-kinded enum
value seeds the numeric anchor. -/
def initAcc (enum : EnumVal) : LoopAcc :=
  { strRepr := if enum.isString then stringValOf enum.asAny else ""
    hasStrRepr := enum.isString
    hasPrimitiveStr := enum.isString
    numericRepr := if enum.isNumber then some enum.asAny else none
    hasPrimitiveNumeric := enum.isNumber }

/-- core.MapAny: registers the enum value with its representations.  The error
tag, if any, is the panic raised; the returned state is the global map at that
point, since a panic does not roll back earlier writes. -/
def MapAny (s0 : CoreState) (enum : EnumVal) (reprs : List GoVal) : CoreState × Option MapErr :=
  if getFinalized s0 then (s0, some .finalized)
  else
    match mapAnyLoop enum reprs (initAcc enum) s0 with
    | ((acc, st), some e) => (st, some e)
    | ((acc, st), none) => mapAnyFinish enum acc st

/-- enum.Finalize: set the is-finalized flag of the enum type. -/
def Finalize (s : CoreState) : CoreState := setS s .isFinalized (.vBool true)

/-- enum.From: mtmap.Get2 on the Repr2Enum key.  A miss yields the zero enum
value and false; the Get2M reading discipline is kept (an entry that does not
assert to Enum yields the zero value and true, which never arises from the
writes of this model). -/
def FromRepr (s : CoreState) (g : GoVal) : EnumVal × Bool :=
  match getS s (.repr2enum g) with
  | some (.vEnum e) => (e, true)
  | some _ => (enumZero, true)
  | none => (enumZero, false)

/-- enum.FromString: lookup under the canonical string. -/
def FromString (s : CoreState) (t : String) : EnumVal × Bool := FromRepr s (.str t)

/-- enum.FromNumber: lookup under a primitive numeric value. -/
def FromNumber (s : CoreState) (nv : NumVal) : EnumVal × Bool := FromRepr s (.num nv)

/-- enum.MustFromString (src/enum.go:443): discards the found flag and returns
whatever FromString produced, the zero enum value on a miss. -/
def MustFromString (s : CoreState) (t : String) : EnumVal := (FromString s t).1

/-- enum.MustFromNumber (src/enum.go:427): discards the found flag and returns
whatever FromNumber produced, the zero enum value on a miss. -/
def MustFromNumber (s : CoreState) (nv : NumVal) : EnumVal := (FromNumber s nv).1

/-- enum.To: mtmap.Get2 on the Enum2Repr key; the stored any is asserted to
the requested representation type (always of that dynamic type by
construction of the writes). -/
def To (s : CoreState) (t : ReprType) (e : EnumVal) : Option GoVal :=
  match getS s (.enum2repr e t) with
  | some (.vGo g) => some g
  | _ => none

/-- enum.ToString: the canonical string of the enum, or the nil sentinel. -/
def ToString (s : CoreState) (e : EnumVal) : String :=
  match To s .stringT e with
  | some (.str t) => t
  | _ => "<nil>"

/-- enum.IsValid: existence of the enum-to-string mapping. -/
def IsValid (s : CoreState) (e : EnumVal) : Bool :=
  (getS s (.enum2repr e .stringT)).isSome

/-- enum.All: the accumulated registration-order list, empty when absent. -/
def All (s : CoreState) : List EnumVal := getAllList s

/-- The rational value seven tenths, i.e. the float anchor 0.7 of the spec's
float-truncation scenario, written with explicit numerator and denominator so
that every comparison on it evaluates. -/
def ratSevenTenths : ℚ := ⟨7, 10, by decide, by decide⟩

/-- A value stored in the untyped global map of mtmap: a Go any, including a
stored nil interface. -/
inductive AnyVal where
  | nil
  | mk (typeName : String) (payload : Nat)
deriving DecidableEq

/-- The static result type V of a Get2M read: a concrete type or an interface
type. -/
inductive VType where
  | concrete (name : String)
  | iface (name : String)
deriving DecidableEq

/-- The Go zero value of V: nil for interface types, the zero value of the
concrete type otherwise. -/
def zeroOf : VType → AnyVal
  | .iface _ => .nil
  | .concrete n => .mk n 0

/-- Whether the stored dynamic value type-asserts to V; impl records which
named types implement which interfaces.  A stored nil interface carries no
concrete type and asserts to nothing. -/
def canAssert (impl : String → String → Bool) : AnyVal → VType → Bool
  | .nil, _ => false
  | .mk tn _, .concrete n => tn = n
  | .mk tn _, .iface n => impl tn n

/-- Raw lookup in the untyped map of mtmap (keys abstracted to naturals). -/
def getM : List (Nat × AnyVal) → Nat → Option AnyVal
  | [], _ => none
  | (k, v) :: rest, key => if k = key then some v else getM rest key

/-- mtmap.Get2M (src/internal/mtmap/mtmap.go): a missing key yields the zero
value and false; a present value that does not assert yields the zero value
and true, the zero standing in for the stored nil. -/
def Get2M (impl : String → String → Bool) (m : List (Nat × AnyVal)) (key : Nat)
    (vt : VType) : AnyVal × Bool :=
  match getM m key with
  | none => (zeroOf vt, false)
  | some val => if canAssert impl val vt then (val, true) else (zeroOf vt, true)

/-! Basic store lemmas. -/

theorem getS_setS_self (s : CoreState) (k : Key) (v : StoreVal) :
    getS (setS s k v) k = some v := by
  simp [getS, setS]

theorem getS_setS_ne (s : CoreState) (k : Key) (v : StoreVal) (k2 : Key) (h : k ≠ k2) :
    getS (setS s k v) k2 = getS s k2 := by
  simp [getS, setS, h]

/-! Arithmetic lemmas about truncation and wrapping. -/

theorem truncQ_intCast (n : Int) : truncQ (n : ℚ) = n := by
  simp [truncQ]

theorem truncQ_natCast (n : Nat) : truncQ (n : ℚ) = n := by
  simp [truncQ]

theorem wrapS_eq_self (b : Nat) (hb : 0 < b) (n : Int)
    (h1 : -(2 ^ (b - 1)) ≤ n) (h2 : n < 2 ^ (b - 1)) : wrapS b n = n := by
  have hsplit : (2 : Int) ^ b = 2 ^ (b - 1) * 2 := by
    have : b - 1 + 1 = b := Nat.succ_pred_eq_of_pos hb
    calc (2 : Int) ^ b = 2 ^ (b - 1 + 1) := by rw [this]
    _ = 2 ^ (b - 1) * 2 := by rw [pow_succ]
  rcases le_or_lt 0 n with hn | hn
  · have hm : n % ((2 : Int) ^ b) = n := by
      apply Int.emod_eq_of_lt hn
      omega
    simp only [wrapS, hm]
    omega
  · have hub : (0 : Int) ≤ n + 2 ^ b := by omega
    have hlt : n + 2 ^ b < 2 ^ b := by omega
    have hm : n % ((2 : Int) ^ b) = n + 2 ^ b := by
      have h3 := Int.add_mul_emod_self_left n ((2 : Int) ^ b) 1
      rw [mul_one] at h3
      have h4 : (n + 2 ^ b) % ((2 : Int) ^ b) = n + 2 ^ b :=
        Int.emod_eq_of_lt hub hlt
      rw [← h3, h4]
    simp only [wrapS, hm]
    omega

theorem wrapU_eq_self (b : Nat) (n : Int) (h1 : 0 ≤ n) (h2 : n < 2 ^ b) :
    (wrapU b n : Int) = n := by
  have hm : n % ((2 : Int) ^ b) = n := Int.emod_eq_of_lt h1 h2
  simp only [wrapU, hm]
  omega

/-- A numeric value whose kind is not a float kind carries an integral value
(its rational value is its own truncation). -/
theorem numValOf_integral (n : GoVal) (hn : isNumber n = true)
    (h32 : isFloat32 n = false) (h64 : isFloat64 n = false) :
    numValOf n = ((truncQ (numValOf n) : Int) : ℚ) := by
  rcases n with v | s | c
  · rcases v with ⟨w, v⟩ | ⟨w, v⟩ | q | q
    · simp [numValOf, NumVal.q, truncQ_intCast]
    · simp [numValOf, NumVal.q, truncQ_natCast]
    · simp [isFloat32] at h32
    · simp [isFloat64] at h64
  · simp [isNumber] at hn
  · rcases c with ⟨tn, k, st⟩
    rcases k with v | s | t
    · rcases v with ⟨w, v⟩ | ⟨w, v⟩ | q | q
      · simp [numValOf, NumVal.q, truncQ_intCast]
      · simp [numValOf, NumVal.q, truncQ_natCast]
      · simp [isFloat32] at h32
      · simp [isFloat64] at h64
    · simp [isNumber] at hn
    · simp [isNumber] at hn

/-! Frame lemmas: which keys each write phase leaves untouched. -/

/-- Keys that the representation scan of MapAny never writes: the scan only
writes custom-typed representation slots (both directions). -/
def loopSafeKey : Key → Bool
  | .enum2repr _ (.customT _) => false
  | .repr2enum (.custom _) => false
  | _ => true

theorem loopSafe_ne_enum2repr {k : Key} (h : loopSafeKey k = true) (e : EnumVal)
    (name : String) : Key.enum2repr e (.customT name) ≠ k := by
  rintro rfl
  simp [loopSafeKey] at h

theorem loopSafe_ne_repr2enum {k : Key} (h : loopSafeKey k = true) (c : CustomVal) :
    Key.repr2enum (.custom c) ≠ k := by
  rintro rfl
  simp [loopSafeKey] at h

/-- The scan leaves every non-custom slot unchanged, whether it panics or not. -/
theorem mapAnyLoop_frame (enum : EnumVal) (reprs : List GoVal) (acc : LoopAcc)
    (st : CoreState) {k : Key} (h : loopSafeKey k = true) :
    getS (mapAnyLoop enum reprs acc st).1.2 k = getS st k := by
  induction reprs generalizing acc st with
  | nil => rfl
  | cons r rest ih =>
    rcases r with nv | t | c
    · by_cases hp : acc.hasPrimitiveNumeric <;> simp [mapAnyLoop, hp, ih]
    · by_cases hp : acc.hasPrimitiveStr <;> simp [mapAnyLoop, hp, ih]
    · simp only [mapAnyLoop]
      by_cases h1 : (getS st (.repr2enum (.custom c))).isSome
      · simp [h1]
      · by_cases h2 : (getS st (.enum2repr enum (.customT c.typeName))).isSome
        · simp [h1, h2]
        · simp only [h1, h2, Bool.false_eq_true, if_false, ite_false]
          rw [ih]
          rw [getS_setS_ne _ _ _ _ (loopSafe_ne_repr2enum h c),
            getS_setS_ne _ _ _ _ (loopSafe_ne_enum2repr h enum c.typeName)]

/-- Keys that mapEnumNumber never writes: it only writes numeric
representation slots (both directions). -/
def numSafeKey : Key → Bool
  | .enum2repr _ (.numT _) => false
  | .repr2enum (.num _) => false
  | _ => true

theorem numSafe_ne_enum2repr {k : Key} (h : numSafeKey k = true) (e : EnumVal)
    (t : NumT) : Key.enum2repr e (.numT t) ≠ k := by
  rintro rfl
  simp [numSafeKey] at h

theorem numSafe_ne_repr2enum {k : Key} (h : numSafeKey k = true) (nv : NumVal) :
    Key.repr2enum (.num nv) ≠ k := by
  rintro rfl
  simp [numSafeKey] at h

theorem writeIntFanout_frame (s : CoreState) (e : EnumVal) (x : ℚ) {k : Key}
    (h : numSafeKey k = true) : getS (writeIntFanout s e x) k = getS s k := by
  simp only [writeIntFanout]
  iterate 10 rw [getS_setS_ne _ _ _ _ (numSafe_ne_repr2enum h _)]
  iterate 10 rw [getS_setS_ne _ _ _ _ (numSafe_ne_enum2repr h _ _)]

theorem writeIntFanout_self_int (s : CoreState) (e : EnumVal) (x : ℚ) (w : IntW) :
    getS (writeIntFanout s e x) (.enum2repr e (.numT (.i w))) =
      some (.vGo (.num (convertNum (.i w) x))) := by
  cases w <;> simp [writeIntFanout, setS, getS]

theorem writeIntFanout_self_uint (s : CoreState) (e : EnumVal) (x : ℚ) (w : UintW) :
    getS (writeIntFanout s e x) (.enum2repr e (.numT (.u w))) =
      some (.vGo (.num (convertNum (.u w) x))) := by
  cases w <;> simp [writeIntFanout, setS, getS]

theorem writeIntFanout_other (s : CoreState) (e : EnumVal) (x : ℚ) (v : EnumVal)
    (hv : v ≠ e) (t : NumT) :
    getS (writeIntFanout s e x) (.enum2repr v (.numT t)) =
      getS s (.enum2repr v (.numT t)) := by
  simp [writeIntFanout, setS, getS, Ne.symm hv]

/-- The condition guarding the integer fan-out, uniformly: the anchor value
equals its truncation (non-float anchors always do). -/
theorem mapInteger_eq (n : GoVal) (hn : isNumber n = true) :
    (if isFloat32 n then decide (numValOf n = ((truncQ (numValOf n) : Int) : ℚ))
     else if isFloat64 n then decide (numValOf n = ((truncQ (numValOf n) : Int) : ℚ))
     else true) = decide (numValOf n = ((truncQ (numValOf n) : Int) : ℚ)) := by
  by_cases h32 : isFloat32 n = true
  · simp [h32]
  · by_cases h64 : isFloat64 n = true
    · simp [h32, h64]
    · simp only [h32, h64, Bool.false_eq_true, if_false]
      rw [decide_eq_true (numValOf_integral n hn (by simpa using h32) (by simpa using h64))]

theorem mapEnumNumber_frame (s : CoreState) (e : EnumVal) (n : GoVal) {k : Key}
    (h : numSafeKey k = true) : getS (mapEnumNumber s e n).1 k = getS s k := by
  simp only [mapEnumNumber]
  by_cases h1 : isNumber n = true
  · by_cases h2 : (getS s (.repr2enum n)).isSome = true
    · simp [h1, h2]
    · by_cases h3 : (getS s (.enum2repr e (.numT .f32))).isSome = true
      · simp [h1, h2, h3]
      · simp only [h1, h2, h3, not_true, not_false_iff, Bool.false_eq_true, if_true, if_false,
          ite_true, ite_false]
        rw [getS_setS_ne _ _ _ _ (numSafe_ne_repr2enum h _),
          getS_setS_ne _ _ _ _ (numSafe_ne_repr2enum h _),
          getS_setS_ne _ _ _ _ (numSafe_ne_enum2repr h _ _),
          getS_setS_ne _ _ _ _ (numSafe_ne_enum2repr h _ _)]
        rw [mapInteger_eq n h1]
        split
        · exact writeIntFanout_frame s e (numValOf n) h
        · rfl
  · simp [h1]

theorem mapEnumNumber_other (s : CoreState) (e : EnumVal) (n : GoVal) (v : EnumVal)
    (hv : v ≠ e) (t : NumT) :
    getS (mapEnumNumber s e n).1 (.enum2repr v (.numT t)) =
      getS s (.enum2repr v (.numT t)) := by
  simp only [mapEnumNumber]
  by_cases h1 : isNumber n = true
  · by_cases h2 : (getS s (.repr2enum n)).isSome = true
    · simp [h1, h2]
    · by_cases h3 : (getS s (.enum2repr e (.numT .f32))).isSome = true
      · simp [h1, h2, h3]
      · simp only [h1, h2, h3, not_true, not_false_iff, Bool.false_eq_true, if_true, if_false,
          ite_true, ite_false]
        have hne : ∀ t2 : NumT, Key.enum2repr e (.numT t2) ≠ Key.enum2repr v (.numT t) := by
          intro t2 heq
          injection heq with he ht
          exact hv he.symm
        rw [getS_setS_ne _ _ _ _ (by rintro ⟨⟩), getS_setS_ne _ _ _ _ (by rintro ⟨⟩),
          getS_setS_ne _ _ _ _ (hne _), getS_setS_ne _ _ _ _ (hne _)]
        rw [mapInteger_eq n h1]
        split
        · exact writeIntFanout_other s e (numValOf n) v hv t
        · rfl
  · simp [h1]

/-! Key disequalities used when peeling writes off the store. -/

theorem kne_r2e_e2r (r : GoVal) (e : EnumVal) (t : ReprType) :
    Key.repr2enum r ≠ Key.enum2repr e t := by rintro ⟨⟩

theorem kne_json_e2r (a b : EnumVal) (t : ReprType) :
    Key.enum2json a ≠ Key.enum2repr b t := by rintro ⟨⟩

theorem kne_all_e2r (b : EnumVal) (t : ReprType) :
    Key.allEnums ≠ Key.enum2repr b t := by rintro ⟨⟩

theorem kne_e2r_r2e (e : EnumVal) (t : ReprType) (r : GoVal) :
    Key.enum2repr e t ≠ Key.repr2enum r := by rintro ⟨⟩

theorem kne_json_r2e (a : EnumVal) (r : GoVal) :
    Key.enum2json a ≠ Key.repr2enum r := by rintro ⟨⟩

theorem kne_all_r2e (r : GoVal) : Key.allEnums ≠ Key.repr2enum r := by rintro ⟨⟩

theorem kne_json_all (a : EnumVal) : Key.enum2json a ≠ Key.allEnums := by rintro ⟨⟩

theorem kne_e2r_all (e : EnumVal) (t : ReprType) :
    Key.enum2repr e t ≠ Key.allEnums := by rintro ⟨⟩

theorem kne_r2e_all (r : GoVal) : Key.repr2enum r ≠ Key.allEnums := by rintro ⟨⟩

theorem kne_fin_e2r (e : EnumVal) (t : ReprType) :
    Key.isFinalized ≠ Key.enum2repr e t := by rintro ⟨⟩

theorem kne_fin_r2e (r : GoVal) : Key.isFinalized ≠ Key.repr2enum r := by rintro ⟨⟩

theorem kne_fin_all : Key.isFinalized ≠ Key.allEnums := by rintro ⟨⟩

theorem kne_e2r_t {a b : EnumVal} {t1 t2 : ReprType} (h : t1 ≠ t2) :
    Key.enum2repr a t1 ≠ Key.enum2repr b t2 := by
  intro heq
  injection heq with h1 h2
  exact h h2

theorem kne_e2r_e {a b : EnumVal} {t1 t2 : ReprType} (h : a ≠ b) :
    Key.enum2repr a t1 ≠ Key.enum2repr b t2 := by
  intro heq
  injection heq with h1 h2
  exact h h1

theorem kne_r2e {r1 r2 : GoVal} (h : r1 ≠ r2) :
    Key.repr2enum r1 ≠ Key.repr2enum r2 := by
  intro heq
  injection heq with h1
  exact h h1

/-! Characterization of mapEnumNumber. -/

/-- A panicking mapEnumNumber has performed no write (both its checks precede
all its writes). -/
theorem mapEnumNumber_err_state (s : CoreState) (e : EnumVal) (n : GoVal)
    (hr : (mapEnumNumber s e n).2 ≠ none) : (mapEnumNumber s e n).1 = s := by
  by_cases h1 : isNumber n = true
  · by_cases h2 : (getS s (.repr2enum n)).isSome = true
    · simp [mapEnumNumber, h1, h2]
    · by_cases h3 : (getS s (.enum2repr e (.numT .f32))).isSome = true
      · simp [mapEnumNumber, h1, h2, h3]
      · exact absurd (by simp [mapEnumNumber, h1, h2, h3]) hr
  · simp [mapEnumNumber, h1]

/-- A successful mapEnumNumber had passed its guards. -/
theorem mapEnumNumber_ok_guard (s : CoreState) (e : EnumVal) (n : GoVal)
    (hok : (mapEnumNumber s e n).2 = none) :
    isNumber n = true ∧ getS s (.repr2enum n) = none ∧
      getS s (.enum2repr e (.numT .f32)) = none := by
  by_cases h1 : isNumber n = true
  · by_cases h2 : (getS s (.repr2enum n)).isSome = true
    · simp [mapEnumNumber, h1, h2] at hok
    · by_cases h3 : (getS s (.enum2repr e (.numT .f32))).isSome = true
      · simp [mapEnumNumber, h1, h2, h3] at hok
      · refine ⟨h1, ?_, ?_⟩
        · cases hx : getS s (.repr2enum n) with
          | none => rfl
          | some v => rw [hx] at h2; simp at h2
        · cases hx : getS s (.enum2repr e (.numT .f32)) with
          | none => rfl
          | some v => rw [hx] at h3; simp at h3
  · simp [mapEnumNumber, h1] at hok

/-- What a successful mapEnumNumber writes for its own enum value: both float
views hold the anchor value exactly; the ten integer views hold the wrapped
truncation exactly when the anchor value is integral, and are untouched
otherwise. -/
theorem mapEnumNumber_self (s : CoreState) (e : EnumVal) (n : GoVal)
    (hok : (mapEnumNumber s e n).2 = none) :
    getS (mapEnumNumber s e n).1 (.enum2repr e (.numT .f32)) =
      some (.vGo (.num (.f32 (numValOf n)))) ∧
    getS (mapEnumNumber s e n).1 (.enum2repr e (.numT .f64)) =
      some (.vGo (.num (.f64 (numValOf n)))) ∧
    (numValOf n = ((truncQ (numValOf n) : Int) : ℚ) →
      (∀ w : IntW, getS (mapEnumNumber s e n).1 (.enum2repr e (.numT (.i w))) =
        some (.vGo (.num (convertNum (.i w) (numValOf n))))) ∧
      (∀ w : UintW, getS (mapEnumNumber s e n).1 (.enum2repr e (.numT (.u w))) =
        some (.vGo (.num (convertNum (.u w) (numValOf n)))))) ∧
    (¬ numValOf n = ((truncQ (numValOf n) : Int) : ℚ) →
      (∀ w : IntW, getS (mapEnumNumber s e n).1 (.enum2repr e (.numT (.i w))) =
        getS s (.enum2repr e (.numT (.i w)))) ∧
      (∀ w : UintW, getS (mapEnumNumber s e n).1 (.enum2repr e (.numT (.u w))) =
        getS s (.enum2repr e (.numT (.u w))))) := by
  obtain ⟨h1, h2n, h3n⟩ := mapEnumNumber_ok_guard s e n hok
  have h2 : ¬ (getS s (.repr2enum n)).isSome = true := by simp [h2n]
  have h3 : ¬ (getS s (.enum2repr e (.numT .f32))).isSome = true := by simp [h3n]
  simp only [mapEnumNumber, h1, h2, h3, not_true, not_false_iff, Bool.false_eq_true,
    if_true, if_false, ite_true, ite_false]
  rw [mapInteger_eq n h1]
  refine ⟨?_, ?_, ?_, ?_⟩
  · rw [getS_setS_ne _ _ _ _ (kne_r2e_e2r _ _ _), getS_setS_ne _ _ _ _ (kne_r2e_e2r _ _ _),
      getS_setS_ne _ _ _ _ (kne_e2r_t (by decide)), getS_setS_self]
    rfl
  · rw [getS_setS_ne _ _ _ _ (kne_r2e_e2r _ _ _), getS_setS_ne _ _ _ _ (kne_r2e_e2r _ _ _),
      getS_setS_self]
    rfl
  · intro hint
    constructor
    · intro w
      rw [getS_setS_ne _ _ _ _ (kne_r2e_e2r _ _ _), getS_setS_ne _ _ _ _ (kne_r2e_e2r _ _ _),
        getS_setS_ne _ _ _ _ (kne_e2r_t (by rintro ⟨⟩)),
        getS_setS_ne _ _ _ _ (kne_e2r_t (by rintro ⟨⟩)),
        decide_eq_true hint, if_pos rfl]
      exact writeIntFanout_self_int s e (numValOf n) w
    · intro w
      rw [getS_setS_ne _ _ _ _ (kne_r2e_e2r _ _ _), getS_setS_ne _ _ _ _ (kne_r2e_e2r _ _ _),
        getS_setS_ne _ _ _ _ (kne_e2r_t (by rintro ⟨⟩)),
        getS_setS_ne _ _ _ _ (kne_e2r_t (by rintro ⟨⟩)),
        decide_eq_true hint, if_pos rfl]
      exact writeIntFanout_self_uint s e (numValOf n) w
  · intro hni
    constructor
    · intro w
      rw [getS_setS_ne _ _ _ _ (kne_r2e_e2r _ _ _), getS_setS_ne _ _ _ _ (kne_r2e_e2r _ _ _),
        getS_setS_ne _ _ _ _ (kne_e2r_t (by rintro ⟨⟩)),
        getS_setS_ne _ _ _ _ (kne_e2r_t (by rintro ⟨⟩)),
        decide_eq_false hni]
      rfl
    · intro w
      rw [getS_setS_ne _ _ _ _ (kne_r2e_e2r _ _ _), getS_setS_ne _ _ _ _ (kne_r2e_e2r _ _ _),
        getS_setS_ne _ _ _ _ (kne_e2r_t (by rintro ⟨⟩)),
        getS_setS_ne _ _ _ _ (kne_e2r_t (by rintro ⟨⟩)),
        decide_eq_false hni]
      rfl

/-! The registry invariants and their preservation. -/

/-- String invariant: every registered enum value has its enum-to-string slot
filled, and the reverse slot maps that string back to it. -/
def Inv1 (s : CoreState) : Prop :=
  ∀ v ∈ getAllList s, ∃ t : String,
    getS s (.enum2repr v .stringT) = some (.vGo (.str t)) ∧
    getS s (.repr2enum (.str t)) = some (.vEnum v)

/-- Numeric invariant: per enum value, either no numeric view exists, or all
views derive from a single anchor value x: both float views hold x exactly,
and the ten integer views hold the wrapped truncation of x when x is integral
(and are absent otherwise). -/
def Inv2 (s : CoreState) : Prop :=
  ∀ v : EnumVal,
    (∀ t : NumT, getS s (.enum2repr v (.numT t)) = none) ∨
    (∃ x : ℚ,
      getS s (.enum2repr v (.numT .f32)) = some (.vGo (.num (.f32 x))) ∧
      getS s (.enum2repr v (.numT .f64)) = some (.vGo (.num (.f64 x))) ∧
      ((x = ((truncQ x : Int) : ℚ) ∧
        (∀ w : IntW, getS s (.enum2repr v (.numT (.i w))) =
          some (.vGo (.num (convertNum (.i w) x)))) ∧
        (∀ w : UintW, getS s (.enum2repr v (.numT (.u w))) =
          some (.vGo (.num (convertNum (.u w) x))))) ∨
       (¬ x = ((truncQ x : Int) : ℚ) ∧
        (∀ w : IntW, getS s (.enum2repr v (.numT (.i w))) = none) ∧
        (∀ w : UintW, getS s (.enum2repr v (.numT (.u w))) = none))))

theorem getAllList_congr {s s2 : CoreState}
    (hall : getS s2 .allEnums = getS s .allEnums) : getAllList s2 = getAllList s := by
  unfold getAllList
  rw [hall]

theorem Inv1_transport {s s2 : CoreState}
    (hall : getS s2 .allEnums = getS s .allEnums)
    (hstr : ∀ v, getS s2 (.enum2repr v .stringT) = getS s (.enum2repr v .stringT))
    (hrep : ∀ t, getS s2 (.repr2enum (.str t)) = getS s (.repr2enum (.str t)))
    (h : Inv1 s) : Inv1 s2 := by
  intro v hv
  rw [getAllList_congr hall] at hv
  obtain ⟨t, ha, hb⟩ := h v hv
  exact ⟨t, by rw [hstr]; exact ha, by rw [hrep]; exact hb⟩

theorem Inv2_transport {s s2 : CoreState}
    (hnum : ∀ v t, getS s2 (.enum2repr v (.numT t)) = getS s (.enum2repr v (.numT t)))
    (h : Inv2 s) : Inv2 s2 := by
  intro v
  rcases h v with hA | ⟨x, hf32, hf64, hrest⟩
  · left
    intro t
    rw [hnum]
    exact hA t
  · right
    refine ⟨x, by rw [hnum]; exact hf32, by rw [hnum]; exact hf64, ?_⟩
    rcases hrest with ⟨hint, hi, hu⟩ | ⟨hni, hi, hu⟩
    · exact Or.inl ⟨hint, fun w => by rw [hnum]; exact hi w, fun w => by rw [hnum]; exact hu w⟩
    · exact Or.inr ⟨hni, fun w => by rw [hnum]; exact hi w, fun w => by rw [hnum]; exact hu w⟩

theorem mapEnumNumber_inv2 (s : CoreState) (e : EnumVal) (n : GoVal)
    (h : Inv2 s) : Inv2 (mapEnumNumber s e n).1 := by
  cases hr : (mapEnumNumber s e n).2 with
  | some err =>
    rw [mapEnumNumber_err_state s e n (by rw [hr]; exact Option.some_ne_none err)]
    exact h
  | none =>
    obtain ⟨h1, h2n, h3n⟩ := mapEnumNumber_ok_guard s e n hr
    obtain ⟨hf32, hf64, hyes, hno⟩ := mapEnumNumber_self s e n hr
    intro v
    by_cases hv : v = e
    · subst hv
      have hA : ∀ t : NumT, getS s (.enum2repr v (.numT t)) = none := by
        rcases h v with hA | ⟨x, hx32, _, _⟩
        · exact hA
        · rw [h3n] at hx32
          exact absurd hx32 (by simp)
      right
      refine ⟨numValOf n, hf32, hf64, ?_⟩
      by_cases hint : numValOf n = ((truncQ (numValOf n) : Int) : ℚ)
      · obtain ⟨hi, hu⟩ := hyes hint
        exact Or.inl ⟨hint, hi, hu⟩
      · obtain ⟨hi, hu⟩ := hno hint
        refine Or.inr ⟨hint, fun w => ?_, fun w => ?_⟩
        · rw [hi w]; exact hA _
        · rw [hu w]; exact hA _
    · have heq : ∀ t, getS (mapEnumNumber s e n).1 (.enum2repr v (.numT t)) =
          getS s (.enum2repr v (.numT t)) := fun t => mapEnumNumber_other s e n v hv t
      rcases h v with hA | ⟨x, hx32, hx64, hrest⟩
      · left
        intro t
        rw [heq]
        exact hA t
      · right
        refine ⟨x, by rw [heq]; exact hx32, by rw [heq]; exact hx64, ?_⟩
        rcases hrest with ⟨hint, hi, hu⟩ | ⟨hni, hi, hu⟩
        · exact Or.inl ⟨hint, fun w => by rw [heq]; exact hi w,
            fun w => by rw [heq]; exact hu w⟩
        · exact Or.inr ⟨hni, fun w => by rw [heq]; exact hi w,
            fun w => by rw [heq]; exact hu w⟩

/-! Lemmas about the string commit. -/

theorem commitString_allList (enum : EnumVal) (t : String) (st : CoreState) :
    getAllList (commitString enum t st) = getAllList st ++ [enum] := by
  have h3 : getS (setS (setS (setS st (.enum2json enum) (.vStr (quoteStr t)))
      (.enum2repr enum .stringT) (.vGo (.str t))) (.repr2enum (.str t))
      (.vEnum enum)) .allEnums = getS st .allEnums := by
    rw [getS_setS_ne _ _ _ _ (kne_r2e_all _), getS_setS_ne _ _ _ _ (kne_e2r_all _ _),
      getS_setS_ne _ _ _ _ (kne_json_all _)]
  simp only [commitString]
  unfold getAllList
  rw [getS_setS_self, h3]

theorem commitString_e2rStr_self (enum : EnumVal) (t : String) (st : CoreState) :
    getS (commitString enum t st) (.enum2repr enum .stringT) =
      some (.vGo (.str t)) := by
  simp only [commitString]
  rw [getS_setS_ne _ _ _ _ (kne_all_e2r _ _), getS_setS_ne _ _ _ _ (kne_r2e_e2r _ _ _),
    getS_setS_self]

theorem commitString_r2eStr_self (enum : EnumVal) (t : String) (st : CoreState) :
    getS (commitString enum t st) (.repr2enum (.str t)) = some (.vEnum enum) := by
  simp only [commitString]
  rw [getS_setS_ne _ _ _ _ (kne_all_r2e _), getS_setS_self]

theorem commitString_e2rStr_old (enum : EnumVal) (t : String) (st : CoreState)
    (v : EnumVal) (hv : enum ≠ v) :
    getS (commitString enum t st) (.enum2repr v .stringT) =
      getS st (.enum2repr v .stringT) := by
  simp only [commitString]
  rw [getS_setS_ne _ _ _ _ (kne_all_e2r _ _), getS_setS_ne _ _ _ _ (kne_r2e_e2r _ _ _),
    getS_setS_ne _ _ _ _ (kne_e2r_e hv), getS_setS_ne _ _ _ _ (kne_json_e2r _ _ _)]

theorem commitString_r2eStr_old (enum : EnumVal) (t : String) (st : CoreState)
    (t2 : String) (ht : t ≠ t2) :
    getS (commitString enum t st) (.repr2enum (.str t2)) =
      getS st (.repr2enum (.str t2)) := by
  simp only [commitString]
  rw [getS_setS_ne _ _ _ _ (kne_all_r2e _),
    getS_setS_ne _ _ _ _ (kne_r2e (fun hh => ht (by injection hh))),
    getS_setS_ne _ _ _ _ (kne_e2r_r2e _ _ _), getS_setS_ne _ _ _ _ (kne_json_r2e _ _)]

theorem commitString_numFrame (enum : EnumVal) (t : String) (st : CoreState)
    (v : EnumVal) (ty : NumT) :
    getS (commitString enum t st) (.enum2repr v (.numT ty)) =
      getS st (.enum2repr v (.numT ty)) := by
  simp only [commitString]
  rw [getS_setS_ne _ _ _ _ (kne_all_e2r _ _), getS_setS_ne _ _ _ _ (kne_r2e_e2r _ _ _),
    getS_setS_ne _ _ _ _ (kne_e2r_t (by rintro ⟨⟩)),
    getS_setS_ne _ _ _ _ (kne_json_e2r _ _ _)]

/-- Preservation of both invariants by the post-scan part of MapAny. -/
theorem mapAnyFinish_inv (enum : EnumVal) (acc : LoopAcc) (st0 : CoreState)
    (h1 : Inv1 st0) (h2 : Inv2 st0) :
    Inv1 (mapAnyFinish enum acc st0).1 ∧ Inv2 (mapAnyFinish enum acc st0).1 := by
  by_cases hs : acc.hasStrRepr = true
  · simp only [mapAnyFinish, hs, not_true, if_false, ite_false]
    obtain ⟨⟨st, err⟩, hmr⟩ :
        ∃ p, mapEnumNumber st0 enum (resolveNumericRepr acc st0) = p := ⟨_, rfl⟩
    rw [hmr]
    have hIst : Inv1 st ∧ Inv2 st := by
      have e1 : st = (mapEnumNumber st0 enum (resolveNumericRepr acc st0)).1 := by rw [hmr]
      subst e1
      refine ⟨Inv1_transport ?_ ?_ ?_ h1, mapEnumNumber_inv2 _ _ _ h2⟩
      · exact mapEnumNumber_frame _ _ _ rfl
      · exact fun v => mapEnumNumber_frame _ _ _ rfl
      · exact fun t => mapEnumNumber_frame _ _ _ rfl
    cases err with
    | some e0 => exact hIst
    | none =>
      by_cases gA : (getS st (.repr2enum (.str acc.strRepr))).isSome = true
      · simp only [gA, if_true, ite_true]
        exact hIst
      · by_cases gB : (getS st (.enum2repr enum .stringT)).isSome = true
        · simp only [gA, gB, Bool.false_eq_true, if_false, if_true, ite_false, ite_true]
          exact hIst
        · simp only [gA, gB, Bool.false_eq_true, if_false, ite_false]
          have gAn : getS st (.repr2enum (.str acc.strRepr)) = none := by
            cases hx : getS st (.repr2enum (.str acc.strRepr)) with
            | none => rfl
            | some v => rw [hx] at gA; simp at gA
          have gBn : getS st (.enum2repr enum .stringT) = none := by
            cases hx : getS st (.enum2repr enum .stringT) with
            | none => rfl
            | some v => rw [hx] at gB; simp at gB
          constructor
          · -- the string invariant at the committed state
            intro v hv
            rw [commitString_allList] at hv
            rcases List.mem_append.mp hv with hvold | hvnew
            · obtain ⟨t, ha, hb⟩ := hIst.1 v hvold
              have hve : enum ≠ v := by
                rintro rfl
                rw [gBn] at ha
                exact absurd ha (by simp)
              have hts : acc.strRepr ≠ t := by
                rintro rfl
                rw [gAn] at hb
                exact absurd hb (by simp)
              refine ⟨t, ?_, ?_⟩
              · rw [commitString_e2rStr_old _ _ _ _ hve]
                exact ha
              · rw [commitString_r2eStr_old _ _ _ _ hts]
                exact hb
            · have hveq : v = enum := by simpa using hvnew
              subst hveq
              exact ⟨acc.strRepr, commitString_e2rStr_self _ _ _,
                commitString_r2eStr_self _ _ _⟩
          · -- the numeric invariant: the commit writes no numeric slot
            exact Inv2_transport (fun v t => commitString_numFrame _ _ _ v t) hIst.2
  · simp only [mapAnyFinish, hs]
    exact ⟨h1, h2⟩

/-- Preservation of both invariants by a full MapAny call, successful or not. -/
theorem MapAny_inv (s0 : CoreState) (e : EnumVal) (reprs : List GoVal)
    (h1 : Inv1 s0) (h2 : Inv2 s0) :
    Inv1 (MapAny s0 e reprs).1 ∧ Inv2 (MapAny s0 e reprs).1 := by
  by_cases hf : getFinalized s0 = true
  · simp only [MapAny, hf, if_true, ite_true]
    exact ⟨h1, h2⟩
  · simp only [MapAny, hf, Bool.false_eq_true, if_false, ite_false]
    obtain ⟨⟨⟨acc, st⟩, err⟩, hl⟩ : ∃ p, mapAnyLoop e reprs (initAcc e) s0 = p := ⟨_, rfl⟩
    rw [hl]
    have hframe : ∀ k, loopSafeKey k = true → getS st k = getS s0 k := by
      intro k hk
      have hh := mapAnyLoop_frame e reprs (initAcc e) s0 hk
      rw [hl] at hh
      exact hh
    have hI1 : Inv1 st := Inv1_transport (hframe _ rfl) (fun v => hframe _ rfl)
      (fun t => hframe _ rfl) h1
    have hI2 : Inv2 st := Inv2_transport (fun v t => hframe _ rfl) h2
    cases err with
    | some e0 => exact ⟨hI1, hI2⟩
    | none => exact mapAnyFinish_inv e acc st hI1 hI2

theorem Finalize_frame (s : CoreState) {k : Key} (h : Key.isFinalized ≠ k) :
    getS (Finalize s) k = getS s k := getS_setS_ne _ _ _ _ h

/-- The store states reachable from the empty registry through the two write
entry points of the core: registration calls (successful or panicking) and
finalization. -/
inductive Reachable : CoreState → Prop
  | empty : Reachable []
  | step (s : CoreState) (e : EnumVal) (reprs : List GoVal) :
      Reachable s → Reachable (MapAny s e reprs).1
  | fin (s : CoreState) : Reachable s → Reachable (Finalize s)

/-- Both registry invariants hold in every reachable state. -/
theorem reachable_inv {s : CoreState} (h : Reachable s) : Inv1 s ∧ Inv2 s := by
  induction h with
  | empty =>
    constructor
    · intro v hv
      simp [getAllList, getS] at hv
    · intro v
      left
      intro t
      rfl
  | step s e reprs hr ih => exact MapAny_inv s e reprs ih.1 ih.2
  | fin s hr ih =>
    constructor
    · exact Inv1_transport (Finalize_frame s kne_fin_all)
        (fun v => Finalize_frame s (kne_fin_e2r _ _))
        (fun t => Finalize_frame s (kne_fin_r2e _)) ih.1
    · exact Inv2_transport (fun v t => Finalize_frame s (kne_fin_e2r _ _)) ih.2

/-! The smallest-available-anchor probe: correctness and termination. -/

/-- Whether the int64 id already has a reverse numeric mapping (the probe's
occupancy criterion). -/
def takenId (s : CoreState) (id : Nat) : Bool := (getS s (probeKey id)).isSome

theorem probeAvail_spec (s : CoreState) :
    ∀ (fuel start : Nat), (∃ k, k < fuel ∧ takenId s (start + k) = false) →
      takenId s (probeAvail s fuel start) = false ∧
      ∀ j, start ≤ j → j < probeAvail s fuel start → takenId s j = true := by
  intro fuel
  induction fuel with
  | zero =>
    intro start h
    obtain ⟨k, hk, _⟩ := h
    exact absurd hk (Nat.not_lt_zero k)
  | succ fuel ih =>
    intro start h
    obtain ⟨k, hk, hfree⟩ := h
    by_cases ht : takenId s start = true
    · have hk0 : k ≠ 0 := by
        rintro rfl
        rw [Nat.add_zero, ht] at hfree
        exact Bool.noConfusion hfree
      have hred : probeAvail s (fuel + 1) start = probeAvail s fuel (start + 1) := by
        have ht2 : (getS s (probeKey start)).isSome = true := ht
        simp [probeAvail, ht2]
      obtain ⟨h1, h2⟩ := ih (start + 1) ⟨k - 1, by omega, by
        have hh : start + 1 + (k - 1) = start + k := by omega
        rw [hh]
        exact hfree⟩
      rw [hred]
      refine ⟨h1, ?_⟩
      intro j hj1 hj2
      rcases Nat.eq_or_lt_of_le hj1 with heq | hlt
      · rw [← heq]
        exact ht
      · exact h2 j hlt hj2
    · have hred : probeAvail s (fuel + 1) start = start := by
        unfold takenId at ht
        simp [probeAvail, ht]
      rw [hred]
      constructor
      · cases hb : takenId s start with
        | true => exact absurd hb ht
        | false => rfl
      · intro j hj1 hj2
        omega

theorem getS_isSome_mem (s : CoreState) (k : Key) (h : (getS s k).isSome = true) :
    k ∈ s.map Prod.fst := by
  induction s with
  | nil => simp [getS] at h
  | cons p rest ih =>
    obtain ⟨k0, v⟩ := p
    by_cases hk : k0 = k
    · subst hk
      simp
    · simp only [getS, hk, if_false, ite_false] at h
      exact List.mem_cons_of_mem _ (ih h)

/-- Pigeonhole: a store of n entries cannot occupy all of the n + 1 ids
0..n, so the probe always terminates at a free id within its fuel. -/
theorem exists_free_id (s : CoreState) :
    ∃ k, k < s.length + 1 ∧ takenId s k = false := by
  by_contra hcon
  push_neg at hcon
  have htaken : ∀ k : Nat, k < s.length + 1 → takenId s k = true := by
    intro k hk
    cases hb : takenId s k with
    | true => rfl
    | false => exact absurd hb (hcon k hk)
  have hmem : ∀ k : Nat, k < s.length + 1 → probeKey k ∈ s.map Prod.fst :=
    fun k hk => getS_isSome_mem s _ (htaken k hk)
  have hinj : Function.Injective probeKey := by
    intro a b hab
    simp [probeKey] at hab
    exact hab
  have hnd : ((List.range (s.length + 1)).map probeKey).Nodup :=
    (List.nodup_range _).map hinj
  have hsub : ∀ x ∈ (List.range (s.length + 1)).map probeKey, x ∈ s.map Prod.fst := by
    intro x hx
    obtain ⟨k, hk, rfl⟩ := List.mem_map.mp hx
    exact hmem k (List.mem_range.mp hk)
  have hcard1 : ((List.range (s.length + 1)).map probeKey).toFinset.card = s.length + 1 := by
    rw [List.toFinset_card_of_nodup hnd, List.length_map, List.length_range]
  have hcard2 : ((List.range (s.length + 1)).map probeKey).toFinset.card ≤ s.length := by
    calc ((List.range (s.length + 1)).map probeKey).toFinset.card
        ≤ (s.map Prod.fst).toFinset.card := by
          apply Finset.card_le_card
          intro x hx
          exact List.mem_toFinset.mpr (hsub x (List.mem_toFinset.mp hx))
      _ ≤ (s.map Prod.fst).length := (s.map Prod.fst).toFinset_card_le
      _ = s.length := List.length_map _ _
  omega

/-- GetAvailableEnumValue returns a free id and every smaller id is taken:
it is the least free id, unconditionally. -/
theorem GetAvailableEnumValue_least (s : CoreState) :
    takenId s (GetAvailableEnumValue s) = false ∧
      ∀ j, j < GetAvailableEnumValue s → takenId s j = true := by
  obtain ⟨k, hk, hfree⟩ := exists_free_id s
  obtain ⟨h1, h2⟩ := probeAvail_spec s (s.length + 1) 0 ⟨k, hk, by simpa using hfree⟩
  exact ⟨h1, fun j hj => h2 j (Nat.zero_le j) hj⟩

/-! Facts used by the always-fails claim about numeric enums. -/

theorem absorbString_keeps (c : CustomVal) (acc : LoopAcc) :
    (absorbString c acc).hasPrimitiveNumeric = acc.hasPrimitiveNumeric := by
  unfold absorbString
  by_cases h : acc.hasStrRepr = true
  · simp [h]
  · simp only [h, Bool.false_eq_true, if_false, ite_false]
    cases c.stringer with
    | some str => rfl
    | none => cases c.kind <;> rfl

theorem absorbNumber_keeps (c : CustomVal) (acc : LoopAcc) :
    (absorbNumber c acc).hasPrimitiveNumeric = acc.hasPrimitiveNumeric := by
  unfold absorbNumber
  split <;> rfl

/-- If the primitive-numeric flag is already set when the scan starts and the
list still contains a primitive numeric value, the scan always panics (either
at that value with the multiple-numerics error, or earlier with another). -/
theorem mapAnyLoop_primNum_err (enum : EnumVal) (reprs : List GoVal) (acc : LoopAcc)
    (st : CoreState) (hacc : acc.hasPrimitiveNumeric = true)
    (hex : reprs.any isPrimitiveNumber = true) :
    ((mapAnyLoop enum reprs acc st).2).isSome = true := by
  induction reprs generalizing acc st with
  | nil => simp at hex
  | cons r rest ih =>
    rcases r with nv | t | c
    · simp [mapAnyLoop, hacc]
    · have hex2 : rest.any isPrimitiveNumber = true := by
        simpa [isPrimitiveNumber] using hex
      by_cases hp : acc.hasPrimitiveStr = true
      · simp [mapAnyLoop, hp]
      · simp only [mapAnyLoop, hp, Bool.false_eq_true, if_false, ite_false]
        exact ih _ _ hacc hex2
    · have hex2 : rest.any isPrimitiveNumber = true := by
        simpa [isPrimitiveNumber] using hex
      simp only [mapAnyLoop]
      by_cases h1 : (getS st (.repr2enum (.custom c))).isSome = true
      · simp [h1]
      · by_cases h2 : (getS st (.enum2repr enum (.customT c.typeName))).isSome = true
        · simp [h1, h2]
        · simp only [h1, h2, Bool.false_eq_true, if_false, ite_false]
          refine ih _ _ ?_ hex2
          rw [absorbNumber_keeps, absorbString_keeps]
          exact hacc

/-- A registration against a finalized type fails immediately, before any
other step and before any write. -/
theorem MapAny_finalized (s : CoreState) (e : EnumVal) (reprs : List GoVal)
    (hf : getFinalized s = true) : MapAny s e reprs = (s, some .finalized) := by
  simp [MapAny, hf]

/-! Helpers for the claim statements. -/

/-- Whether a numeric type is one of the ten integer widths. -/
def isIntWidthT : NumT → Bool
  | .i _ => true | .u _ => true | _ => false

/-- xreflect.Convert to int64 applied to a numeric view value (sign extension
for signed widths, wrap for uint64 values above the int64 range, truncation
for floats). -/
def viewAsInt64 : GoVal → Int
  | .num (.int _ v) => wrapS 64 v
  | .num (.uint _ v) => wrapS 64 (v : Int)
  | .num (.f32 x) => truncQ x
  | .num (.f64 x) => truncQ x
  | _ => 0

/-- The anchor integer is representable in the numeric width. -/
def fits : NumT → Int → Prop
  | .i w, n => -(2 ^ (w.bits - 1)) ≤ n ∧ n < 2 ^ (w.bits - 1)
  | .u w, n => 0 ≤ n ∧ n < 2 ^ w.bits
  | .f32, _ => True
  | .f64, _ => True

theorem IntW.bits_pos (w : IntW) : 0 < w.bits := by cases w <;> decide

theorem To_eq_some {s : CoreState} {t : ReprType} {v : EnumVal} {g : GoVal}
    (h : To s t v = some g) : getS s (.enum2repr v t) = some (.vGo g) := by
  unfold To at h
  cases hx : getS s (.enum2repr v t) with
  | none =>
    rw [hx] at h
    exact Option.noConfusion h
  | some sv =>
    cases sv with
    | vGo g2 =>
      rw [hx] at h
      rw [Option.some.inj h]
    | vEnum e =>
      rw [hx] at h
      exact Option.noConfusion h
    | vStr t2 =>
      rw [hx] at h
      exact Option.noConfusion h
    | vList l =>
      rw [hx] at h
      exact Option.noConfusion h
    | vBool b =>
      rw [hx] at h
      exact Option.noConfusion h

/-- The view produced by the fan-out for an integral anchor, converted back to
int64, is the anchor itself whenever the anchor is representable in the width
and in int64. -/
theorem viewAsInt64_convert (t : NumT) (n : Int) (hW : isIntWidthT t = true)
    (hfit : fits t n) (hfit64 : fits (.i .i64) n) :
    viewAsInt64 (.num (convertNum t (n : ℚ))) = n := by
  cases t with
  | i w =>
    show wrapS 64 (wrapS w.bits (truncQ (n : ℚ))) = n
    rw [truncQ_intCast, wrapS_eq_self w.bits (IntW.bits_pos w) n hfit.1 hfit.2,
      wrapS_eq_self 64 (by decide) n hfit64.1 hfit64.2]
  | u w =>
    show wrapS 64 ((wrapU w.bits (truncQ (n : ℚ)) : Nat) : Int) = n
    rw [truncQ_intCast, wrapU_eq_self w.bits n hfit.1 hfit.2,
      wrapS_eq_self 64 (by decide) n hfit64.1 hfit64.2]
  | f32 => simp [isIntWidthT] at hW
  | f64 => simp [isIntWidthT] at hW

theorem FromRepr_false {s : CoreState} {g : GoVal} (h : (FromRepr s g).2 = false) :
    FromRepr s g = (enumZero, false) := by
  unfold FromRepr at h ⊢
  cases hx : getS s (.repr2enum g) with
  | none => rfl
  | some sv =>
    rw [hx] at h
    cases sv <;> simp at h

/-- An external representation value of a user-defined type with no Stringer
method and no string or numeric kind, used in several concrete scenarios. -/
def extRepr : CustomVal := ⟨"ExtCode", .other "x", none⟩

/-- Scenario state: register A with string a and no explicit number. -/
def regA : CoreState := (MapAny [] (.plain "A") [.str "a"]).1

/-- Scenario state: then register B with string b and no explicit number. -/
def regB : CoreState := (MapAny regA (.plain "B") [.str "b"]).1

/-- Scenario state: then register C with string c and explicit number 5. -/
def regC : CoreState := (MapAny regB (.plain "C") [.str "c", .num (.int .i 5)]).1

/-- Scenario call: finally register D with string d and no explicit number. -/
def regD : CoreState × Option MapErr := MapAny regC (.plain "D") [.str "d"]

/-! Claim C1. -/

/-- Claim C1, counterexample: storing a nil interface and reading it back
with an interface result type does not yield found = false.  Get2M returns
the zero value with found = true, because the key does exist in the map. -/
theorem c1_counterexample :
    (Get2M (fun _ _ => false) [(0, AnyVal.nil)] 0 (.iface "Stringer")).2 = true ∧
    Get2M (fun _ _ => false) [(0, AnyVal.nil)] 0 (.iface "Stringer") =
      (AnyVal.nil, true) := by
  decide

/-- Claim C1, amended: when the value stored under a key does not type-assert
to the expected static type (e.g. a stored nil interface), Get2M returns the
zero value of that type together with found = true - it never faults, but it
does not report not-found either; found = false is reserved for absent keys. -/
theorem c1_get_mismatch_amended (impl : String → String → Bool)
    (m : List (Nat × AnyVal)) (key : Nat) (vt : VType) (val : AnyVal)
    (hs : getM m key = some val) (hna : canAssert impl val vt = false) :
    Get2M impl m key vt = (zeroOf vt, true) := by
  simp [Get2M, hs, hna]

/-- Witness for the amended claim C1 at a concrete stored nil. -/
theorem c1_witness :
    Get2M (fun _ _ => false) [(1, AnyVal.nil)] 1 (.iface "S") =
      (zeroOf (.iface "S"), true) :=
  c1_get_mismatch_amended (fun _ _ => false) [(1, AnyVal.nil)] 1 (.iface "S")
    AnyVal.nil (by decide) (by decide)

/-! Claim C2. -/

/-- Claim C2, counterexample: registration is not atomic.  A MapAny call that
panics with the missing-string error has already written the extra
representation into both directions, and the write stays observable through
the public lookup after the failure. -/
theorem c2_counterexample :
    (MapAny [] (.plain "e") [.custom extRepr]).2 = some .noStringRepr ∧
    getS ([] : CoreState) (.repr2enum (.custom extRepr)) = none ∧
    getS (MapAny [] (.plain "e") [.custom extRepr]).1 (.repr2enum (.custom extRepr)) =
      some (.vEnum (.plain "e")) ∧
    FromRepr (MapAny [] (.plain "e") [.custom extRepr]).1 (.custom extRepr) =
      (.plain "e", true) := by
  decide

/-- Claim C2, amended: MapAny interleaves checks with writes, so a failing
call can leave earlier writes visible; only a failure on the finalized
pre-check is guaranteed to leave the store exactly unchanged. -/
theorem c2_register_not_atomic_amended (s : CoreState) (e : EnumVal)
    (reprs : List GoVal) (hf : getFinalized s = true) :
    (MapAny s e reprs).1 = s ∧ (MapAny s e reprs).2 = some .finalized := by
  rw [MapAny_finalized s e reprs hf]
  exact ⟨rfl, rfl⟩

/-- Witness for the amended claim C2 on a concrete finalized store. -/
theorem c2_witness :
    (MapAny (Finalize []) (.plain "w") [.custom extRepr]).1 = Finalize [] :=
  (c2_register_not_atomic_amended (Finalize []) (.plain "w") [.custom extRepr]
    (by decide)).1

/-! Claim C3. -/

/-- Claim C3, counterexample: for an unregistered string and number, the
plain lookups return found = false, and the must variants return the zero
enum value instead of failing loudly - MustFromString and MustFromNumber of
src/enum.go (lines 427-446) have no failure path at all. -/
theorem c3_counterexample :
    (FromString [] "missing").2 = false ∧ MustFromString [] "missing" = enumZero ∧
    (FromNumber [] (.int .i 9)).2 = false ∧ MustFromNumber [] (.int .i 9) = enumZero := by
  decide

/-- Claim C3, amended: the plain from lookups return found = false on a miss
and never fail loudly; the must variants do not fail loudly either, they
discard the found flag and return the zero enum value on a miss (as their own
doc comments state). -/
theorem c3_must_variants_amended (s : CoreState) (t : String) (nv : NumVal)
    (h1 : (FromString s t).2 = false) (h2 : (FromNumber s nv).2 = false) :
    MustFromString s t = enumZero ∧ MustFromNumber s nv = enumZero := by
  constructor
  · unfold MustFromString FromString
    unfold FromString at h1
    rw [FromRepr_false h1]
  · unfold MustFromNumber FromNumber
    unfold FromNumber at h2
    rw [FromRepr_false h2]

/-- Witness for the amended claim C3 on the empty registry. -/
theorem c3_witness :
    MustFromString [] "nope" = enumZero ∧ MustFromNumber [] (.int .i64 5) = enumZero :=
  c3_must_variants_amended [] "nope" (.int .i64 5) (by decide) (by decide)

/-! Claim C4. -/

/-- Claim C4, counterexample: width consistency fails for anchors outside a
narrow width's range.  Registering the numeric enum value 300 writes an int8
view of 44 (Go conversion wraps), whose int64 conversion differs from the
int64 view 300. -/
theorem c4_counterexample :
    (MapAny [] (.num (.int .i 300)) [.str "big"]).2 = none ∧
    To (MapAny [] (.num (.int .i 300)) [.str "big"]).1 (.numT (.i .i8))
      (.num (.int .i 300)) = some (.num (.int .i8 44)) ∧
    To (MapAny [] (.num (.int .i 300)) [.str "big"]).1 (.numT (.i .i64))
      (.num (.int .i 300)) = some (.num (.int .i64 300)) ∧
    ¬ viewAsInt64 (GoVal.num (.int .i8 44)) = viewAsInt64 (GoVal.num (.int .i64 300)) := by
  decide

/-- Claim C4, amended: in every reachable state, all integer-width views of a
registered value derive from one anchor integer n via the wrapping Go
conversion, and the W1 and W2 views agree when both are converted to int64
provided n is representable in W1, W2 and int64; with out-of-range anchors
the conversions wrap and the views can differ. -/
theorem c4_width_consistency_amended (s : CoreState) (hs : Reachable s)
    (v : EnumVal) (t1 t2 : NumT) (h1 : isIntWidthT t1 = true)
    (h2 : isIntWidthT t2 = true) (g1 g2 : GoVal)
    (hv1 : To s (.numT t1) v = some g1) (hv2 : To s (.numT t2) v = some g2) :
    ∃ n : Int, g1 = .num (convertNum t1 (n : ℚ)) ∧ g2 = .num (convertNum t2 (n : ℚ)) ∧
      (fits t1 n → fits t2 n → fits (.i .i64) n →
        viewAsInt64 g1 = viewAsInt64 g2) := by
  have hg1 := To_eq_some hv1
  have hg2 := To_eq_some hv2
  rcases (reachable_inv hs).2 v with hA | ⟨x, hf32, hf64, hrest⟩
  · rw [hA] at hg1
    exact Option.noConfusion hg1
  rcases hrest with ⟨hint, hi, hu⟩ | ⟨hni, hi, hu⟩
  · have ge : ∀ t : NumT, isIntWidthT t = true →
        getS s (.enum2repr v (.numT t)) =
          some (.vGo (.num (convertNum t ((truncQ x : Int) : ℚ)))) := by
      intro t ht
      cases t with
      | i w => rw [hi w, ← hint]
      | u w => rw [hu w, ← hint]
      | f32 => simp [isIntWidthT] at ht
      | f64 => simp [isIntWidthT] at ht
    have ge1 : g1 = .num (convertNum t1 ((truncQ x : Int) : ℚ)) := by
      have hq := Option.some.inj ((ge t1 h1).symm.trans hg1)
      injection hq with h3
      exact h3.symm
    have ge2 : g2 = .num (convertNum t2 ((truncQ x : Int) : ℚ)) := by
      have hq := Option.some.inj ((ge t2 h2).symm.trans hg2)
      injection hq with h3
      exact h3.symm
    refine ⟨truncQ x, ge1, ge2, ?_⟩
    intro hfit1 hfit2 hfit64
    rw [ge1, ge2, viewAsInt64_convert t1 (truncQ x) h1 hfit1 hfit64,
      viewAsInt64_convert t2 (truncQ x) h2 hfit2 hfit64]
  · exfalso
    cases t1 with
    | i w =>
      rw [hi w] at hg1
      exact Option.noConfusion hg1
    | u w =>
      rw [hu w] at hg1
      exact Option.noConfusion hg1
    | f32 => simp [isIntWidthT] at h1
    | f64 => simp [isIntWidthT] at h1

/-- Scenario state for the C4 witness: a numeric enum registered with the
in-range anchor 7. -/
def reg7 : CoreState × Option MapErr :=
  MapAny [] (.plain "N7") [.str "seven", .num (.int .i 7)]

/-- Witness for the amended claim C4: the int8 and int64 views of the value
anchored at 7 share the anchor and agree as int64. -/
theorem c4_witness : ∃ n : Int,
    GoVal.num (.int .i8 7) = .num (convertNum (.i .i8) (n : ℚ)) ∧
    GoVal.num (.int .i64 7) = .num (convertNum (.i .i64) (n : ℚ)) ∧
    (fits (.i .i8) n → fits (.i .i64) n → fits (.i .i64) n →
      viewAsInt64 (GoVal.num (.int .i8 7)) = viewAsInt64 (GoVal.num (.int .i64 7))) :=
  c4_width_consistency_amended reg7.1
    (Reachable.step [] (.plain "N7") [.str "seven", .num (.int .i 7)] Reachable.empty)
    (.plain "N7") (.i .i8) (.i .i64) rfl rfl
    (.num (.int .i8 7)) (.num (.int .i64 7)) (by decide) (by decide)

/-! Claim C5. -/

/-- Claim C5: the assigned numeric anchor when no numeric representation is
supplied.  First conjunct: GetAvailableEnumValue always returns the smallest
id with no reverse mapping, probing from 0 upward (free, and everything below
taken).  Second: MapAny uses exactly that id as the anchor when the scan
found no numeric representation.  Third: the concrete scenario - register A
(anchor 0), B (anchor 1), C with explicit number 5, then D, whose anchor is
2, not 6. -/
theorem c5_smallest_available :
    (∀ s : CoreState, takenId s (GetAvailableEnumValue s) = false ∧
      ∀ j, j < GetAvailableEnumValue s → takenId s j = true) ∧
    (∀ (acc : LoopAcc) (st : CoreState), acc.numericRepr = none →
      resolveNumericRepr acc st = .num (.int .i64 (GetAvailableEnumValue st : Int))) ∧
    ((MapAny [] (.plain "A") [.str "a"]).2 = none ∧
     (MapAny regA (.plain "B") [.str "b"]).2 = none ∧
     (MapAny regB (.plain "C") [.str "c", .num (.int .i 5)]).2 = none ∧
     regD.2 = none ∧
     To regD.1 (.numT (.i .i64)) (.plain "D") = some (.num (.int .i64 2)) ∧
     To regD.1 (.numT (.i .i64)) (.plain "C") = some (.num (.int .i64 5)) ∧
     To regD.1 (.numT (.i .i64)) (.plain "A") = some (.num (.int .i64 0)) ∧
     To regD.1 (.numT (.i .i64)) (.plain "B") = some (.num (.int .i64 1))) := by
  refine ⟨GetAvailableEnumValue_least, ?_, by decide⟩
  intro acc st h
  simp [resolveNumericRepr, h]

/-- Witness for claim C5: in the scenario state before registering D, id 0 is
taken and the probe stops at the free id 2; the anchor-defaulting equation
instantiated at D's scan result. -/
theorem c5_witness :
    takenId regC 0 = true ∧
    resolveNumericRepr (initAcc (.plain "D")) regC =
      .num (.int .i64 (GetAvailableEnumValue regC : Int)) :=
  ⟨(c5_smallest_available.1 regC).2 0 (by decide),
   c5_smallest_available.2.1 (initAcc (.plain "D")) regC (by decide)⟩

/-! Claim C6. -/

/-- Scenario state for claim C6: registering with the float anchor 3.0. -/
def regF3 : CoreState × Option MapErr :=
  MapAny [] (.plain "three") [.str "three", .num (.f64 3)]

/-- Scenario state for claim C6: registering with the float anchor 0.7. -/
def regF7 : CoreState × Option MapErr :=
  MapAny [] (.plain "sev") [.str "sev", .num (.f64 ratSevenTenths)]

/-- Claim C6: for a float-kinded anchor, a successful mapEnumNumber performs
the integer fan-out iff the float equals its truncation, and writes the
float32 and float64 views in both cases.  Concretely: anchor 3.0 yields an
int view equal to 3; anchor 0.7 leaves all integer lookups failing while both
float views and reverse lookups exist. -/
theorem c6_float_truncation :
    (∀ s : CoreState, Reachable s → ∀ (e : EnumVal) (n : GoVal),
      (isFloat32 n = true ∨ isFloat64 n = true) → (mapEnumNumber s e n).2 = none →
      (((getS (mapEnumNumber s e n).1 (.enum2repr e (.numT (.i .i)))).isSome = true) ↔
        numValOf n = ((truncQ (numValOf n) : Int) : ℚ)) ∧
      getS (mapEnumNumber s e n).1 (.enum2repr e (.numT .f32)) =
        some (.vGo (.num (.f32 (numValOf n)))) ∧
      getS (mapEnumNumber s e n).1 (.enum2repr e (.numT .f64)) =
        some (.vGo (.num (.f64 (numValOf n))))) ∧
    (regF3.2 = none ∧
     To regF3.1 (.numT (.i .i)) (.plain "three") = some (.num (.int .i 3)) ∧
     regF7.2 = none ∧
     To regF7.1 (.numT (.i .i)) (.plain "sev") = none ∧
     To regF7.1 (.numT (.i .i64)) (.plain "sev") = none ∧
     To regF7.1 (.numT .f32) (.plain "sev") = some (.num (.f32 ratSevenTenths)) ∧
     To regF7.1 (.numT .f64) (.plain "sev") = some (.num (.f64 ratSevenTenths)) ∧
     (FromNumber regF7.1 (.int .i 0)).2 = false ∧
     (FromNumber regF7.1 (.int .i64 0)).2 = false ∧
     (FromNumber regF7.1 (.f64 ratSevenTenths)).2 = true) := by
  constructor
  · intro s hs e n hfl hok
    obtain ⟨hf32, hf64, hyes, hno⟩ := mapEnumNumber_self s e n hok
    obtain ⟨hn1, hn2, hn3⟩ := mapEnumNumber_ok_guard s e n hok
    refine ⟨⟨?_, ?_⟩, hf32, hf64⟩
    · intro hsome
      by_contra hni
      obtain ⟨hi, hu⟩ := hno hni
      rcases (reachable_inv hs).2 e with hA | ⟨x, hx32, _, _⟩
      · rw [hi IntW.i, hA (NumT.i IntW.i)] at hsome
        simp at hsome
      · rw [hn3] at hx32
        exact Option.noConfusion hx32
    · intro hint
      obtain ⟨hi, hu⟩ := hyes hint
      rw [hi IntW.i]
      rfl
  · decide

/-- Witness for the first part of claim C6 at a concrete integral float
anchor (3.0 as a float64) on the empty registry. -/
theorem c6_witness :
    (((getS (mapEnumNumber [] (.plain "w") (.num (.f64 3))).1
        (.enum2repr (.plain "w") (.numT (.i .i)))).isSome = true) ↔
      numValOf (.num (.f64 3)) = ((truncQ (numValOf (.num (.f64 3))) : Int) : ℚ)) ∧
    getS (mapEnumNumber [] (.plain "w") (.num (.f64 3))).1
      (.enum2repr (.plain "w") (.numT .f32)) =
      some (.vGo (.num (.f32 (numValOf (.num (.f64 3)))))) ∧
    getS (mapEnumNumber [] (.plain "w") (.num (.f64 3))).1
      (.enum2repr (.plain "w") (.numT .f64)) =
      some (.vGo (.num (.f64 (numValOf (.num (.f64 3)))))) :=
  c6_float_truncation.1 [] Reachable.empty (.plain "w") (.num (.f64 3))
    (Or.inr rfl) (by decide)

/-! Claim C7. -/

/-- Claim C7: for every enum value v registered by any sequence of MapAny
calls (successful or panicking) and finalizations, looking up the canonical
string produced by ToString resolves back to exactly v with found = true. -/
theorem c7_string_roundtrip (s : CoreState) (hs : Reachable s) (v : EnumVal)
    (hv : v ∈ All s) : FromString s (ToString s v) = (v, true) := by
  obtain ⟨t, ha, hb⟩ := (reachable_inv hs).1 v hv
  have hts : ToString s v = t := by
    unfold ToString To
    rw [ha]
  rw [hts]
  unfold FromString FromRepr
  rw [hb]

/-- Witness for claim C7: the round trip for the value A in the concrete
one-registration state. -/
theorem c7_witness : FromString regA (ToString regA (.plain "A")) = (.plain "A", true) :=
  c7_string_roundtrip regA
    (Reachable.step [] (.plain "A") [.str "a"] Reachable.empty) (.plain "A") (by decide)

/-! Claim C8. -/

/-- Claim C8: after Finalize, every subsequent MapAny call fails immediately
with the finalized error and performs no write (the returned state is exactly
the input state); Finalize itself only sets the is-finalized flag, leaving
every other slot unchanged. -/
theorem c8_finalize_blocks :
    (∀ (s : CoreState) (e : EnumVal) (reprs : List GoVal), getFinalized s = true →
      MapAny s e reprs = (s, some .finalized)) ∧
    (∀ s : CoreState, getFinalized (Finalize s) = true) ∧
    (∀ (s : CoreState) (k : Key), k ≠ .isFinalized → getS (Finalize s) k = getS s k) := by
  refine ⟨MapAny_finalized, ?_, ?_⟩
  · intro s
    unfold getFinalized Finalize
    rw [getS_setS_self]
  · intro s k hk
    exact getS_setS_ne _ _ _ _ (Ne.symm hk)

/-- Witness for claim C8 on a concrete finalized store. -/
theorem c8_witness :
    MapAny (Finalize []) (.plain "x") [.str "s"] = (Finalize [], some .finalized) ∧
    getS (Finalize []) (.enum2repr (.plain "x") .stringT) =
      getS ([] : CoreState) (.enum2repr (.plain "x") .stringT) :=
  ⟨c8_finalize_blocks.1 (Finalize []) (.plain "x") [.str "s"] (by decide),
   c8_finalize_blocks.2.2 [] (.enum2repr (.plain "x") .stringT) (by decide)⟩

/-! Claim C9. -/

/-- Claim C9: after any sequence of register calls, every enum value in the
all-values list has an enum-to-string mapping and IsValid returns true for
it. -/
theorem c9_all_isValid (s : CoreState) (hs : Reachable s) (v : EnumVal)
    (hv : v ∈ All s) :
    IsValid s v = true ∧ ∃ t : String, To s .stringT v = some (.str t) := by
  obtain ⟨t, ha, hb⟩ := (reachable_inv hs).1 v hv
  constructor
  · unfold IsValid
    rw [ha]
    rfl
  · refine ⟨t, ?_⟩
    unfold To
    rw [ha]

/-- Witness for claim C9: the value B in the concrete two-registration state. -/
theorem c9_witness :
    IsValid regB (.plain "B") = true ∧
    ∃ t : String, To regB .stringT (.plain "B") = some (.str t) :=
  c9_all_isValid regB
    (Reachable.step regA (.plain "B") [.str "b"]
      (Reachable.step [] (.plain "A") [.str "a"] Reachable.empty))
    (.plain "B") (by decide)

/-! Claim C10. -/

/-- Claim C10, counterexample: a register call on a numeric enum value that
supplies a primitive numeric representation does fail, but not always with
the multiple-primitive-numerics error: an earlier violation in the scan (here
a duplicated custom representation) surfaces its own error first. -/
theorem c10_counterexample :
    EnumVal.isNumber (.num (.int .i 1)) = true ∧
    ([GoVal.custom extRepr, .custom extRepr, .num (.int .i 5)].any isPrimitiveNumber) = true ∧
    (MapAny [] (.num (.int .i 1)) [.custom extRepr, .custom extRepr, .num (.int .i 5)]).2 =
      some .reprAlreadyMapped ∧
    MapErr.reprAlreadyMapped ≠ MapErr.multipleNumerics := by
  decide

/-- Claim C10, amended: a MapAny call on a numeric-kinded enum value whose
representation list contains a primitive numeric value never succeeds (the
enum itself already occupies the numeric-anchor slot, so the scan cannot pass
that value without panicking); the error is the multiple-primitive-numerics
one whenever the primitive numeric is reached, e.g. when it is the only
representation and the type is not finalized. -/
theorem c10_numeric_enum_always_fails :
    (∀ (s : CoreState) (e : EnumVal) (reprs : List GoVal), e.isNumber = true →
      reprs.any isPrimitiveNumber = true → ((MapAny s e reprs).2).isSome = true) ∧
    (∀ (s : CoreState) (e : EnumVal) (nv : NumVal), getFinalized s = false →
      e.isNumber = true → (MapAny s e [.num nv]).2 = some .multipleNumerics) := by
  constructor
  · intro s e reprs he hex
    by_cases hf : getFinalized s = true
    · rw [MapAny_finalized s e reprs hf]
      rfl
    · simp only [MapAny, hf, Bool.false_eq_true, if_false, ite_false]
      obtain ⟨⟨⟨acc, st⟩, err⟩, hl⟩ : ∃ p, mapAnyLoop e reprs (initAcc e) s = p := ⟨_, rfl⟩
      have herr := mapAnyLoop_primNum_err e reprs (initAcc e) s (by simp [initAcc, he]) hex
      rw [hl] at herr
      rw [hl]
      cases err with
      | some e0 => rfl
      | none => simp at herr
  · intro s e nv hf he
    simp [MapAny, hf, mapAnyLoop, initAcc, he]

/-- Witness for the amended claim C10 at concrete numeric enum values. -/
theorem c10_witness :
    ((MapAny [] (.num (.int .i 2)) [.custom extRepr, .num (.int .i 5)]).2).isSome = true ∧
    (MapAny [] (.num (.int .i 2)) [.num (.int .i 5)]).2 = some .multipleNumerics :=
  ⟨c10_numeric_enum_always_fails.1 [] (.num (.int .i 2)) [.custom extRepr, .num (.int .i 5)]
      (by decide) (by decide),
   c10_numeric_enum_always_fails.2 [] (.num (.int .i 2)) (.int .i 5) (by decide) (by decide)⟩

end XyborEnum
